import Mathlib

/-!
Shallow embedding of `gen_patch.py`, a tool that generates a Magma overlay
spec file from a git repository and a TOML configuration.  Pure fragments of
the script (path normalization, diff-output parsing, classification, the two
output formatters) are translated into executable Lean definitions; the
impure surface (git subprocesses, the filesystem, TOML parsing) is supplied
by an explicit environment record.  Strings are manipulated through
`List Char` based helpers so that every definition reduces in the kernel.
-/

/-! ## String helpers (kernel-reducible models of the Python string operations) -/

/-- Split a string at every occurrence of a single character, keeping empty
chunks, mirroring Python `str.split(sep)` for a one-character separator. -/
def strSplitOnChar (sep : Char) (s : String) : List String :=
  (s.data.splitOn sep).map String.mk

/-- Concatenate a list of strings with a separator, mirroring
`sep.join(xs)` / `"/".join(parts)`. -/
def strJoin (sep : String) (xs : List String) : String :=
  String.mk (List.intercalate sep.data (xs.map String.data))

/-- Python `s.startswith(p)`. -/
def strStartsWith (s p : String) : Bool :=
  p.data.isPrefixOf s.data

/-- Python `s.endswith(p)`. -/
def strEndsWithPy (s p : String) : Bool :=
  p.data.isSuffixOf s.data

/-- Lower-case an ASCII character, mirroring `str.lower` on ASCII input. -/
def chLower (c : Char) : Char :=
  if 65 ≤ c.toNat ∧ c.toNat ≤ 90 then Char.ofNat (c.toNat + 32) else c

/-- Python `s.lower()` (ASCII fragment, which is all the source compares). -/
def strLower (s : String) : String :=
  String.mk (s.data.map chLower)

/-- Python `s.strip()` on the whitespace the script ever meets. -/
def pyStrip (s : String) : String :=
  String.mk (((s.data.dropWhile Char.isWhitespace).reverse.dropWhile Char.isWhitespace).reverse)

/-- Python `s.rstrip("/")`. -/
def rstripSlash (s : String) : String :=
  String.mk ((s.data.reverse.dropWhile (fun c => c = '/')).reverse)

/-- Python `s[n:]` character slicing used by the curly formatter. -/
def strDropChars (n : Nat) (s : String) : String :=
  String.mk (s.data.drop n)

/-- Strict lexicographic comparison of character lists by code point, the
order Python uses to compare `str` values. -/
def chListLt : List Char → List Char → Bool
  | [], [] => false
  | [], _ :: _ => true
  | _ :: _, [] => false
  | x :: xs, y :: ys =>
    if x.toNat < y.toNat then true
    else if y.toNat < x.toNat then false
    else chListLt xs ys

/-- Python `a < b` on strings. -/
def strLt (a b : String) : Bool := chListLt a.data b.data

/-- Python `a <= b` on strings (total order used by `sorted`). -/
def strLe (a b : String) : Bool := !(chListLt b.data a.data)

/-- Model of Python `sorted` on a list of strings. -/
def pysorted (l : List String) : List String :=
  l.insertionSort (fun a b => strLe a b)

/-- Split a character list at every occurrence of the two-character
separator `".."`, mirroring Python `str.split("..")`. -/
def splitDotDotAux : List Char → List Char → List (List Char)
  | acc, '.' :: '.' :: rest => acc.reverse :: splitDotDotAux [] rest
  | acc, c :: rest => splitDotDotAux (c :: acc) rest
  | acc, [] => [acc.reverse]

/-- Python `s.split("..")`. -/
def splitDotDot (s : String) : List String :=
  (splitDotDotAux [] s.data).map String.mk

/-- Python `".." in s`. -/
def containsDotDot (s : String) : Bool :=
  decide (2 ≤ (splitDotDot s).length)

/-- Python `s.split("..", 1)`, defined for strings that contain `".."`:
the chunk before the first occurrence and everything after it. -/
def splitOnceDotDot (s : String) : String × String :=
  match splitDotDot s with
  | [] => ("", "")
  | a :: rest => (a, strJoin ".." rest)

example : strSplitOnChar '/' "a//b/" = ["a", "", "b", ""] := by decide
example : splitDotDot "a...b" = ["a", ".b"] := by decide
example : splitOnceDotDot "a..b..c" = ("a", "b..c") := by decide
example : pysorted ["b", "a", "ab"] = ["a", "ab", "b"] := by decide

/-! ## Path helpers (models of `pathlib` / `os.path` operations) -/

/-- Components of a POSIX path as `pathlib.PurePosixPath.parts` computes
them for a path with no drive: empty components and `"."` are dropped,
`".."` is kept. -/
def pathParts (s : String) : List String :=
  (strSplitOnChar '/' s).filter (fun c => c ≠ "" ∧ c ≠ ".")

/-- Render an absolute path from its components, inverse of `pathParts`
on clean absolute paths (`Path.as_posix` of an absolute path). -/
def joinAbs (segs : List String) : String :=
  "/" ++ strJoin "/" segs

/-- Lexical `..` elimination performed by `Path.resolve` /
`os.path.abspath` on an absolute path with no symlinks: a `".."`
component pops the previous component, and is dropped at the root. -/
def normSegs (segs : List String) : List String :=
  segs.foldl (fun acc c => if c = ".." then acc.dropLast else acc ++ [c]) []

/-- Resolve an absolute path string: `Path(p).resolve().as_posix()`. -/
def resolveAbsStr (s : String) : String :=
  joinAbs (normSegs (pathParts s))

/-- Python `Path(p).as_posix()` for a relative path `p` (used by
`normalize_and_apply_explicit_paths` on non-absolute selectors). -/
def posixOfRelative (s : String) : String :=
  let ps := pathParts s
  if ps.isEmpty then "." else strJoin "/" ps

/-- Python `Path(p).is_absolute()` on POSIX. -/
def isAbsStr (s : String) : Bool := strStartsWith s "/"

/-- Python `Path.expanduser`: `~` and `~/...` expand to the user's home
directory (given as absolute path components); other strings unchanged. -/
def expanduser (home : List String) (p : String) : String :=
  if p = "~" then joinAbs home
  else if strStartsWith p "~/" then joinAbs home ++ strDropChars 1 p
  else p

/-- Length of the common prefix of two component lists. -/
def commonPrefixLen : List String → List String → Nat
  | a :: as, b :: bs => if a = b then commonPrefixLen as bs + 1 else 0
  | _, _ => 0

/-- Model of `gen_patch.relpath_posix`, i.e.
`Path(os.path.relpath(p, start)).as_posix()` for absolute POSIX inputs:
both arguments are normalized, the common prefix is dropped and replaced
by `".."` steps up from `start`. -/
def relpath_posix (p start : String) : String :=
  let pl := normSegs (pathParts p)
  let sl := normSegs (pathParts start)
  let i := commonPrefixLen pl sl
  let rel := List.replicate (sl.length - i) ".." ++ pl.drop i
  if rel.isEmpty then "." else strJoin "/" rel

example : pathParts "/a//./b/" = ["a", "b"] := by decide
example : resolveAbsStr "/a/b/../c" = "/a/c" := by decide
example : relpath_posix "/repo/package/x.m" "/repo" = "package/x.m" := by decide
example : relpath_posix "/other/z" "/repo/out" = "../../other/z" := by decide
example : relpath_posix "/repo" "/repo" = "." := by decide

/-! ## Embedded program: `gen_patch.py` -/

namespace GenPatch

/-- Config values the script reads from the TOML file (`main`, lines
520-536 of the source).  `none` models an absent key; defaults are applied
at the use site exactly as the `cfg.get` / `opts.get` calls do. -/
structure Config where
  repo_dir : Option String := none
  baseline : Option String := none
  target : Option String := none
  fetch : Bool := false
  commits : List String := []
  ranges : List String := []
  paths : List String := []
  restrict_prefixes : Option (List String) := none
  order : Option String := none
  baseline_mode : Option String := none
  output_format : Option String := none
  include_uncommitted : Bool := true
  include_specs_top : List String := []
  include_specs_opts : List String := []
  output_top : Option String := none
  output_opts : Option String := none
deriving DecidableEq

/-- The impure surface of the script: results of the git subprocesses, the
filesystem, the CLI arguments and the TOML parse.  A `none` result of a
subprocess field models a non-zero exit status
(`subprocess.CalledProcessError`); a `some` carries the captured stdout. -/
structure Env where
  cfgIsFile : Bool
  parsedConfig : Option Config
  cfgDir : List String
  home : List String
  argsOutput : Option String
  isDir : List String → Bool
  fetchOk : Bool
  revParseOk : String → Bool
  isAncestor : String → String → Bool
  mergeBase : String → String → Option String
  forkPoint : String → String → Option String
  gitDiffAMR : String → Option String
  diffTreeAMR : String → Option String
  diffCachedTxt : Option String
  diffWorktreeTxt : Option String
  lsFilesOthers : Option String
  fileExists : String → Bool

/-- How a run of the script ends: `ok` carries the atomically written
output lines and the printed summary; `exit2` models `sys.exit(2)`;
`uncaught` models an exception that no handler catches (the Python
interpreter then exits with code 1, not 2). -/
inductive Outcome where
  | ok (outPath : String) (lines : List String) (summary : String)
  | exit2 (msg : String)
  | uncaught (msg : String)
deriving DecidableEq

/-- The output path's file after a run, given its previous content:
`write_atomic_lines` (temp file + rename) runs only on the success path,
so a fatal run leaves any pre-existing file untouched. -/
def fileAfterRun (prev : Option (List String)) (o : Outcome) : Option (List String) :=
  match o with
  | .ok _ lines _ => some lines
  | _ => prev

/-- `parse_name_status`: parse `git diff --name-status` output, taking the
new path for renames; records with too few tab-separated fields are
skipped, as are blank lines. -/
def parse_name_status (text : String) : List String :=
  (strSplitOnChar '\n' text).flatMap (fun line =>
    if pyStrip line = "" then []
    else
      let parts := strSplitOnChar '\t' line
      let status := parts.headD ""
      if strStartsWith status "R" then
        match parts.get? 2 with
        | some newPath => [newPath]
        | none => []
      else
        match parts.get? 1 with
        | some p => [p]
        | none => [])

/-- `is_under_prefixes`: does the relative path start with an allowed
prefix. -/
def is_under_prefixes (path_rel : String) (prefixes : List String) : Bool :=
  prefixes.any (fun pref => strStartsWith path_rel pref)

/-- Commit loop of `ensure_selectors_are_ancestors`: each selected commit
must be an ancestor of the target. -/
def check_commits_ancestors (isAnc : String → String → Bool) (target : String) :
    List String → Except String Unit
  | [] => .ok ()
  | c :: rest =>
    if isAnc c target then check_commits_ancestors isAnc target rest
    else .error ("commit " ++ c ++ " is not an ancestor of " ++ target ++ ". Cannot include without copying.")

/-- Range loop of `ensure_selectors_are_ancestors`: each range must be of
the form `A..B` and its tip `B` must be an ancestor of the target. -/
def check_ranges_ancestors (isAnc : String → String → Bool) (target : String) :
    List String → Except String Unit
  | [] => .ok ()
  | rng :: rest =>
    if !(containsDotDot rng) then .error ("range must be A..B, got: " ++ rng)
    else
      let B := (splitOnceDotDot rng).2
      if isAnc B target then check_ranges_ancestors isAnc target rest
      else .error ("range tip " ++ B ++ " is not an ancestor of " ++ target ++ ". Cannot include without copying.")

/-- `ensure_selectors_are_ancestors`: commits are validated first, then
ranges, stopping at the first offender with `sys.exit(2)`. -/
def ensure_selectors_are_ancestors (isAnc : String → String → Bool)
    (commits ranges : List String) (target : String) : Except String Unit :=
  match check_commits_ancestors isAnc target commits with
  | .error m => .error m
  | .ok _ => check_ranges_ancestors isAnc target ranges

/-- `collect_paths_from_diff`: AMR paths of `git diff baseline..target`
filtered by the allowed prefixes. -/
def collect_paths_from_diff (env : Env) (baseline target : String) (prefixes : List String) :
    Except String (List String) :=
  match env.gitDiffAMR (baseline ++ ".." ++ target) with
  | none => .error "diff baseline..target failed"
  | some txt => .ok ((parse_name_status txt).filter (fun rel => is_under_prefixes rel prefixes))

/-- `collect_paths_from_commits`: AMR paths of the first-parent diff of
each selected commit, filtered by the allowed prefixes; the first failing
`git diff-tree` call is fatal. -/
def collect_paths_from_commits (env : Env) (commits : List String) (prefixes : List String) :
    Except String (List String) :=
  match commits with
  | [] => .ok []
  | c :: rest =>
    match env.diffTreeAMR c with
    | none => .error ("diff-tree for " ++ c ++ " failed")
    | some txt =>
      match collect_paths_from_commits env rest prefixes with
      | .error m => .error m
      | .ok more => .ok (((parse_name_status txt).filter (fun rel => is_under_prefixes rel prefixes)) ++ more)

/-- `collect_paths_from_ranges`: AMR paths of `git diff A..B` for each
selected range, filtered by the allowed prefixes. -/
def collect_paths_from_ranges (env : Env) (ranges : List String) (prefixes : List String) :
    Except String (List String) :=
  match ranges with
  | [] => .ok []
  | rng :: rest =>
    let A := (splitOnceDotDot rng).1
    let B := (splitOnceDotDot rng).2
    match env.gitDiffAMR (A ++ ".." ++ B) with
    | none => .error ("diff for range " ++ rng ++ " failed")
    | some txt =>
      match collect_paths_from_ranges env rest prefixes with
      | .error m => .error m
      | .ok more => .ok (((parse_name_status txt).filter (fun rel => is_under_prefixes rel prefixes)) ++ more)

/-- `collect_paths_from_uncommitted`: staged changes, unstaged changes,
and untracked files of the working tree, filtered by the allowed
prefixes. -/
def collect_paths_from_uncommitted (env : Env) (prefixes : List String) :
    Except String (List String) :=
  match env.diffCachedTxt with
  | none => .error "diff --cached failed"
  | some t1 =>
    match env.diffWorktreeTxt with
    | none => .error "diff (worktree) failed"
    | some t2 =>
      match env.lsFilesOthers with
      | none => .error "ls-files for untracked failed"
      | some t3 =>
        .ok (((parse_name_status t1).filter (fun rel => is_under_prefixes rel prefixes))
          ++ ((parse_name_status t2).filter (fun rel => is_under_prefixes rel prefixes))
          ++ (((strSplitOnChar '\n' t3).map pyStrip).filter
                (fun rel => rel ≠ "" ∧ is_under_prefixes rel prefixes)))

/-- Loop body of `normalize_and_apply_explicit_paths`: an absolute
selector (after `~` expansion) is resolved and must fall inside
`repoDir`, else fatal; a relative selector is taken as
`Path(pth).as_posix()` with no containment check.  Each normalized
selector joins the explicit set; only those passing the prefix filter
join the relative path set. -/
def normalize_explicit_loop (home : List String) (repoDir : List String)
    (prefixes : List String) :
    List String → List String → List String → Except String (List String × List String)
  | [], eset, rels => .ok (eset, rels)
  | pth :: rest, eset, rels =>
    let p_expanded := expanduser home pth
    if isAbsStr p_expanded then
      let abs_norm := normSegs (pathParts p_expanded)
      if repoDir.isPrefixOf abs_norm then
        let relSegs := abs_norm.drop repoDir.length
        let rel_s := if relSegs.isEmpty then "." else strJoin "/" relSegs
        normalize_explicit_loop home repoDir prefixes rest (eset ++ [rel_s])
          (if is_under_prefixes rel_s prefixes then rels ++ [rel_s] else rels)
      else .error ("explicit path not under repo_dir: " ++ pth)
    else
      let rel_s := posixOfRelative pth
      normalize_explicit_loop home repoDir prefixes rest (eset ++ [rel_s])
        (if is_under_prefixes rel_s prefixes then rels ++ [rel_s] else rels)

/-- `normalize_and_apply_explicit_paths`, returning
`(explicit_set, rel_paths_from_explicit)`. -/
def normalize_and_apply_explicit_paths (home : List String) (explicit_paths : List String)
    (repoDir : List String) (prefixes : List String) :
    Except String (List String × List String) :=
  normalize_explicit_loop home repoDir prefixes explicit_paths [] []

/-- One step of the `materialize_and_classify` loop over the sorted
candidate set: resolve against the repository root, drop and record
missing paths (fatally when explicitly requested), and bucket survivors
by extension; other extensions are ignored. -/
def classify_step (fileExists : String → Bool) (repoDir : List String)
    (explicit_set : List String)
    (st : List String × List String × List String × List String) (rel : String) :
    List String × List String × List String × List String :=
  if !(fileExists (joinAbs (normSegs (repoDir ++ pathParts rel)))) then
    if rel ∈ explicit_set then (st.1, st.2.1, st.2.2.1 ++ [rel], st.2.2.2)
    else (st.1, st.2.1, st.2.2.1, st.2.2.2 ++ [rel])
  else if strEndsWithPy rel ".spec" then
    (st.1 ++ [joinAbs (repoDir ++ pathParts rel)], st.2.1, st.2.2.1, st.2.2.2)
  else if strEndsWithPy rel ".m" then
    (st.1, st.2.1 ++ [joinAbs (repoDir ++ pathParts rel)], st.2.2.1, st.2.2.2)
  else st

/-- `materialize_and_classify`: iterate over the deduplicated candidate
set in sorted order and return
`(abs_spec, abs_m, missing_explicit, dropped_missing)`. -/
def materialize_and_classify (fileExists : String → Bool) (repoDir : List String)
    (rel_paths : List String) (explicit_set : List String) :
    List String × List String × List String × List String :=
  (pysorted rel_paths.dedup).foldl (classify_step fileExists repoDir explicit_set) ([], [], [], [])

/-- `resolve_effective_baseline`: pick the diff baseline according to the
configured mode (`raw`, `merge-base` or `fork-point` with merge-base
fallback); an unknown mode name is fatal. -/
def resolve_effective_baseline (env : Env) (baseline_ref target_ref mode : String) :
    Except String String :=
  let mode_lc := strLower (if mode = "" then "raw" else mode)
  if mode_lc = "raw" then .ok baseline_ref
  else if mode_lc = "merge-base" then
    match env.mergeBase baseline_ref target_ref with
    | some out => .ok (pyStrip out)
    | none => .error ("git merge-base failed for " ++ baseline_ref ++ " and " ++ target_ref)
  else if mode_lc = "fork-point" then
    match env.forkPoint baseline_ref target_ref with
    | some out =>
      if pyStrip out ≠ "" then .ok (pyStrip out)
      else
        match env.mergeBase baseline_ref target_ref with
        | some out2 => .ok (pyStrip out2)
        | none => .error ("git merge-base fallback failed for " ++ baseline_ref ++ " and " ++ target_ref)
    | none =>
      match env.mergeBase baseline_ref target_ref with
      | some out2 => .ok (pyStrip out2)
      | none => .error ("git merge-base fallback failed for " ++ baseline_ref ++ " and " ++ target_ref)
  else .error ("unknown baseline_mode: " ++ mode)

/-- `resolve_repo_dir_from_config`: the mandatory repository directory,
expanded and resolved (relative locations resolve against the TOML
file's own directory). -/
def resolve_repo_dir_from_config (cfgDir home : List String) (rd : Option String) :
    Except String (List String) :=
  match rd with
  | none => .error "config must define repo_dir"
  | some rd_raw =>
    let rd_path := expanduser home rd_raw
    if isAbsStr rd_path then .ok (normSegs (pathParts rd_path))
    else .ok (normSegs (cfgDir ++ pathParts rd_path))

/-- `build_output_lines_flat`: optional forced `include_specs` entries
first (always `+`-prefixed, in config order); then in `spec-first` order
the sorted spec set followed by the sorted source set, otherwise one
sorted merge of both rendered groups keyed on the final line text. -/
def build_output_lines_flat (abs_spec abs_m : List String) (order_mode : String)
    (out_dir : String) (include_specs_abs : List String) : List String :=
  let top := include_specs_abs.map (fun p => "+" ++ relpath_posix p out_dir)
  if order_mode = "spec-first" then
    top ++ (pysorted abs_spec).map (fun p => "+" ++ relpath_posix p out_dir)
        ++ (pysorted abs_m).map (fun p => relpath_posix p out_dir)
  else
    top ++ pysorted (abs_spec.map (fun p => "+" ++ relpath_posix p out_dir)
                     ++ abs_m.map (fun p => relpath_posix p out_dir))

/-- `str(Path(rel).parent.as_posix())` for the relative paths the curly
formatter groups by. -/
def parent_of (rel : String) : String :=
  let ps := pathParts rel
  if ps.length ≤ 1 then "." else strJoin "/" ps.dropLast

/-- `Path(rel).name` for the relative paths the curly formatter lists. -/
def name_of (rel : String) : String :=
  (pathParts rel).getLastD ""

/-- `sorted(dir_to_files.get(d, []))` of the curly formatter: basenames of
the `.m` paths whose parent directory (relative to the output directory)
is `d`. -/
def dir_files (out_dir : String) (abs_m : List String) (d : String) : List String :=
  pysorted ((abs_m.filter (fun p => parent_of (relpath_posix p out_dir) = d)).map
    (fun p => name_of (relpath_posix p out_dir)))

/-- `sorted(dir_to_spec_files.get(d, set()))` of the curly formatter:
basenames of the `.spec` paths whose parent directory is `d` (a set in the
source, hence deduplicated). -/
def dir_specs (out_dir : String) (abs_spec : List String) (d : String) : List String :=
  pysorted (((abs_spec.filter (fun p => parent_of (relpath_posix p out_dir) = d)).map
    (fun p => name_of (relpath_posix p out_dir))).dedup)

/-- `sorted(set(norm_dirs))` of the curly formatter: every parent
directory that holds a selected file, with the root key `"."` normalized
to the empty string. -/
def curly_all_dirs (out_dir : String) (abs_spec abs_m : List String) : List String :=
  let keys := ((abs_m.map (fun p => parent_of (relpath_posix p out_dir)))
    ++ (abs_spec.map (fun p => parent_of (relpath_posix p out_dir)))).dedup
  pysorted ((keys.map (fun d => if d = "." then "" else d)).dedup)

/-- Python list comparison on lists of strings (lexicographic by
elementwise string comparison), as used by `min`/`max` inside
`os.path.commonpath`. -/
def listStrLt : List String → List String → Bool
  | [], [] => false
  | [], _ :: _ => true
  | _ :: _, [] => false
  | a :: as, b :: bs =>
    if strLt a b then true
    else if strLt b a then false
    else listStrLt as bs

/-- Common prefix of two component lists. -/
def listCommonPrefix : List String → List String → List String
  | a :: as, b :: bs => if a = b then a :: listCommonPrefix as bs else []
  | _, _ => []

/-- `os.path.commonpath` on relative POSIX paths: split each path into
components (dropping empty and `"."`), take the lexicographic minimum and
maximum of the component lists, and join their common prefix. -/
def commonpath (paths : List String) : String :=
  let split_paths := paths.map (fun p =>
    (strSplitOnChar '/' p).filter (fun c => c ≠ "" ∧ c ≠ "."))
  match split_paths with
  | [] => ""
  | s0 :: rest =>
    let s1 := rest.foldl (fun m s => if listStrLt s m then s else m) s0
    let s2 := rest.foldl (fun m s => if listStrLt m s then s else m) s0
    strJoin "/" (listCommonPrefix s1 s2)

/-- The common ancestor directory the curly formatter nests under, when
more than one distinct non-root directory is present and `commonpath`
yields a usable candidate. -/
def curly_common_dir (all_dirs : List String) : Option String :=
  let nonempty_dirs := all_dirs.filter (fun d => d ≠ "")
  if 1 < nonempty_dirs.length then
    let candidate := commonpath nonempty_dirs
    if candidate ≠ "" ∧ candidate ≠ "." ∧
        nonempty_dirs.all (fun d => d = candidate || strStartsWith d (rstripSlash candidate ++ "/"))
      then some candidate
      else none
  else none

/-- Sub-block of the curly formatter for one directory `d` strictly below
the common ancestor: header and brace lines indented one level, contents
indented two levels. -/
def curly_sub_block (out_dir : String) (abs_spec abs_m : List String) (pre : String) (d : String) :
    List String :=
  let rel := rstripSlash (strDropChars pre.data.length d)
  ["  " ++ rel ++ "/", "  \x7b"]
    ++ (dir_files out_dir abs_m d).map (fun f => "    " ++ f)
    ++ (dir_specs out_dir abs_spec d).map (fun s => "    +" ++ s)
    ++ ["  \x7d"]

/-- `build_output_lines_curly`: forced `include_specs` entries first, then
either a single nested block under the common ancestor directory, or one
independent block per directory (with the root pseudo-directory listed
without a header). -/
def build_output_lines_curly (abs_spec abs_m : List String) (out_dir : String)
    (include_specs_abs : List String) : List String :=
  let top := include_specs_abs.map (fun p => "+" ++ relpath_posix p out_dir)
  let all_dirs := curly_all_dirs out_dir abs_spec abs_m
  match curly_common_dir all_dirs with
  | some common_dir =>
    let pre := common_dir ++ "/"
    top ++ [common_dir ++ "/", "\x7b"]
      ++ (dir_files out_dir abs_m common_dir).map (fun f => "  " ++ f)
      ++ (dir_specs out_dir abs_spec common_dir).map (fun s => "  +" ++ s)
      ++ (all_dirs.filter (fun d => d ≠ "" ∧ d ≠ common_dir ∧ strStartsWith d pre)).flatMap
           (curly_sub_block out_dir abs_spec abs_m pre)
      ++ ["\x7d"]
  | none =>
    top ++ all_dirs.flatMap (fun d =>
      if d ≠ "" then
        [rstripSlash d ++ "/", "\x7b"]
          ++ (dir_files out_dir abs_m d).map (fun f => "  " ++ f)
          ++ (dir_specs out_dir abs_spec d).map (fun s => "  +" ++ s)
          ++ ["\x7d"]
      else
        (dir_files out_dir abs_m d).map (fun f => "  " ++ f)
          ++ (dir_specs out_dir abs_spec d).map (fun s => "  +" ++ s))

/-- Python truthiness filter for optional strings: `None` and `""` are
falsy, as in the `a or b` / `if chosen_output:` chains of `main`. -/
def truthyStr : Option String → Option String
  | some s => if s = "" then none else some s
  | none => none

/-- Resolution of one `include_specs` entry (relative entries resolve
against the repository root). -/
def resolve_include_spec (home repoDir : List String) (sp : String) : String :=
  let p := expanduser home sp
  if !(isAbsStr p) then joinAbs (normSegs (repoDir ++ pathParts p))
  else resolveAbsStr p

/-- The output path chosen by `main` (CLI override, else config value,
else `<repo_dir>/.magma_overlay.spec`), as absolute path components; an
absolute choice is kept unresolved, exactly as in the source. -/
def choose_out_path (env : Env) (cfg : Config) (repoDir : List String) : List String :=
  let cfg_output := match truthyStr cfg.output_top with
    | some s => some s
    | none => cfg.output_opts
  let chosen := match truthyStr env.argsOutput with
    | some a => some a
    | none => truthyStr cfg_output
  match chosen with
  | some co =>
    let pe := expanduser env.home co
    if isAbsStr pe then pathParts pe
    else normSegs (repoDir ++ pathParts pe)
  | none => normSegs (repoDir ++ [".magma_overlay.spec"])

/-- The target ref, `cfg.get("target", "HEAD")`. -/
def cfg_target (cfg : Config) : String := cfg.target.getD "HEAD"

/-- The baseline ref, `cfg.get("baseline", "origin/main")`. -/
def cfg_baseline (cfg : Config) : String := cfg.baseline.getD "origin/main"

/-- The allowed prefixes, `opts.get("restrict_prefixes", ["package/"])`. -/
def cfg_prefixes (cfg : Config) : List String := cfg.restrict_prefixes.getD ["package/"]

/-- The baseline mode, `opts.get("baseline_mode", "raw")`. -/
def cfg_baseline_mode (cfg : Config) : String := cfg.baseline_mode.getD "raw"

/-- The order mode, `opts.get("order", "spec-first")`. -/
def cfg_order_mode (cfg : Config) : String := cfg.order.getD "spec-first"

/-- `(output_format or "flat").lower()` with
`output_format = opts.get("output_format", "curly")`. -/
def cfg_fmt (cfg : Config) : String :=
  strLower (if cfg.output_format.getD "curly" = "" then "flat" else cfg.output_format.getD "curly")

/-- The resolved forced inclusion entries of `main` (lines 575-584):
top-level `include_specs` if non-empty, else the options-level list. -/
def include_specs_of (env : Env) (repoDir : List String) (cfg : Config) : List String :=
  (if cfg.include_specs_top ≠ [] then cfg.include_specs_top else cfg.include_specs_opts).map
    (resolve_include_spec env.home repoDir)

/-- The classified spec set of `main` (lines 560-563): absolute resolved
POSIX strings, deduplicated as the Python `set` is. -/
def abs_spec_of (env : Env) (repoDir rel_paths explicit_set : List String) : List String :=
  ((materialize_and_classify env.fileExists repoDir rel_paths explicit_set).1.map
    resolveAbsStr).dedup

/-- The classified source set of `main` (lines 560-564). -/
def abs_m_of (env : Env) (repoDir rel_paths explicit_set : List String) : List String :=
  ((materialize_and_classify env.fileExists repoDir rel_paths explicit_set).2.1.map
    resolveAbsStr).dedup

/-- The missing explicitly-selected paths detected by classification. -/
def missing_of (env : Env) (repoDir rel_paths explicit_set : List String) : List String :=
  (materialize_and_classify env.fileExists repoDir rel_paths explicit_set).2.2.1

/-- The summary line printed on success (line 612). -/
def summary_of (env : Env) (cfg : Config) (repoDir rel_paths explicit_set : List String) :
    String :=
  "Wrote " ++ toString (abs_spec_of env repoDir rel_paths explicit_set).length
    ++ " spec and " ++ toString (abs_m_of env repoDir rel_paths explicit_set).length
    ++ " source entries to " ++ joinAbs (choose_out_path env cfg repoDir)

/-- Formatting and writing stage of `main` (lines 597-612): dispatch on the
output format, wrap the body in the outer brace pair, and write
atomically; an unknown format name is fatal before any write. -/
def emit_stage (env : Env) (cfg : Config) (repoDir rel_paths explicit_set : List String) :
    Outcome :=
  if cfg_fmt cfg = "flat" then
    .ok (joinAbs (choose_out_path env cfg repoDir))
      (["\x7b"] ++ build_output_lines_flat (abs_spec_of env repoDir rel_paths explicit_set)
          (abs_m_of env repoDir rel_paths explicit_set) (cfg_order_mode cfg)
          (joinAbs (choose_out_path env cfg repoDir).dropLast)
          (include_specs_of env repoDir cfg) ++ ["\x7d"])
      (summary_of env cfg repoDir rel_paths explicit_set)
  else if cfg_fmt cfg = "curly" then
    .ok (joinAbs (choose_out_path env cfg repoDir))
      (["\x7b"] ++ build_output_lines_curly (abs_spec_of env repoDir rel_paths explicit_set)
          (abs_m_of env repoDir rel_paths explicit_set)
          (joinAbs (choose_out_path env cfg repoDir).dropLast)
          (include_specs_of env repoDir cfg) ++ ["\x7d"])
      (summary_of env cfg repoDir rel_paths explicit_set)
  else .exit2 ("unknown output_format: " ++ cfg.output_format.getD "curly")

/-- Classification stage of `main` (lines 560-573): missing explicitly
selected paths are fatal, with the full offending list in the message,
before anything is formatted or written. -/
def classify_stage (env : Env) (cfg : Config) (repoDir rel_paths explicit_set : List String) :
    Outcome :=
  if missing_of env repoDir rel_paths explicit_set ≠ [] then
    .exit2 ("explicitly selected paths missing at target:"
      ++ strJoin "" ((missing_of env repoDir rel_paths explicit_set).map (fun rel => " " ++ rel)))
  else emit_stage env cfg repoDir rel_paths explicit_set

/-- `main` of `gen_patch.py` over the environment: configuration checks,
git queries, selector validation, collection, classification, formatting,
and finally the atomic write; every fatal condition short-circuits with
`exit2` before the write, and a TOML parse failure propagates as an
uncaught exception (the interpreter then exits 1). -/
def mainRun (env : Env) : Outcome :=
  if !env.cfgIsFile then .exit2 "config not found" else
  match env.parsedConfig with
  | none => .uncaught "TOMLDecodeError"
  | some cfg =>
    match resolve_repo_dir_from_config env.cfgDir env.home cfg.repo_dir with
    | .error m => .exit2 m
    | .ok repoDir =>
      if !(env.isDir repoDir) then .exit2 "repo_dir does not exist" else
      if cfg.fetch && !env.fetchOk then .exit2 "git fetch failed" else
      if !(env.revParseOk (cfg_target cfg)) then
        .exit2 ("target ref invalid: " ++ cfg_target cfg) else
      match ensure_selectors_are_ancestors env.isAncestor cfg.commits cfg.ranges
          (cfg_target cfg) with
      | .error m => .exit2 m
      | .ok _ =>
      match resolve_effective_baseline env (cfg_baseline cfg) (cfg_target cfg)
          (cfg_baseline_mode cfg) with
      | .error m => .exit2 m
      | .ok effective_baseline =>
      match collect_paths_from_diff env effective_baseline (cfg_target cfg) (cfg_prefixes cfg) with
      | .error m => .exit2 m
      | .ok from_diff =>
      match collect_paths_from_commits env cfg.commits (cfg_prefixes cfg) with
      | .error m => .exit2 m
      | .ok from_commits =>
      match collect_paths_from_ranges env cfg.ranges (cfg_prefixes cfg) with
      | .error m => .exit2 m
      | .ok from_ranges =>
      match (if cfg.include_uncommitted then collect_paths_from_uncommitted env (cfg_prefixes cfg)
             else .ok []) with
      | .error m => .exit2 m
      | .ok from_uncommitted =>
      match normalize_and_apply_explicit_paths env.home cfg.paths repoDir (cfg_prefixes cfg) with
      | .error m => .exit2 m
      | .ok explicitPair =>
        classify_stage env cfg repoDir
          (from_diff ++ from_commits ++ from_ranges ++ from_uncommitted ++ explicitPair.2)
          explicitPair.1



/-- A fully healthy environment: valid config file at `/repo`, all git
queries succeed with empty diffs, every ref valid and ancestral, and no
file present in the working tree.  Individual scenarios override fields. -/
def baseEnv : Env := {
  cfgIsFile := true
  parsedConfig := some { repo_dir := some "/repo" }
  cfgDir := ["cfgs"]
  home := ["home", "u"]
  argsOutput := none
  isDir := fun _ => true
  fetchOk := true
  revParseOk := fun _ => true
  isAncestor := fun _ _ => true
  mergeBase := fun _ _ => some "mb"
  forkPoint := fun _ _ => some "fp"
  gitDiffAMR := fun _ => some ""
  diffTreeAMR := fun _ => some ""
  diffCachedTxt := some ""
  diffWorktreeTxt := some ""
  lsFilesOthers := some ""
  fileExists := fun _ => false
}

/-- Environment whose configuration explicitly selects `docs/notes.m`, a
path outside the default `package/` prefix, while no file exists in the
working tree at all. -/
def envExplicitOutsidePrefix : Env := { baseEnv with
  parsedConfig := some { repo_dir := some "/repo", paths := ["docs/notes.m"] } }

/-- Environment whose configuration forces the inclusion entry
`missing_inc.spec` (flat format) while no file exists in the working
tree. -/
def envForcedIncludeMissing : Env := { baseEnv with
  parsedConfig := some { repo_dir := some "/repo",
                         include_specs_top := ["missing_inc.spec"],
                         output_format := some "flat" } }

/-- Environment whose configuration file exists but fails to parse as
TOML. -/
def envMalformedToml : Env := { baseEnv with parsedConfig := none }

/-- Environment whose configuration file does not exist. -/
def envNoConfigFile : Env := { baseEnv with cfgIsFile := false }

/-- Environment selecting commit `c1` in a repository where no ref is an
ancestor of any other. -/
def envBadCommitSelector : Env := { baseEnv with
  parsedConfig := some { repo_dir := some "/repo", commits := ["c1"] },
  isAncestor := fun _ _ => false }

/-- Environment whose configuration contains the malformed range
selector `"abc"` (no `".."`). -/
def envMalformedRange : Env := { baseEnv with
  parsedConfig := some { repo_dir := some "/repo", ranges := ["abc"] } }

end GenPatch

/-! ## Order facts about the Python string comparison -/

theorem stringDataInj {a b : String} (h : a.data = b.data) : a = b := by
  cases a; cases b; exact congrArg String.mk h

theorem chToNatInj {a b : Char} (h : a.toNat = b.toNat) : a = b :=
  Char.eq_of_val_eq (UInt32.ext h)

theorem chListLt_irrefl : ∀ a, chListLt a a = false := by
  intro a
  induction a with
  | nil => rfl
  | cons x xs ih => simp [chListLt, ih]

theorem chListLt_trans :
    ∀ (a b c : List Char), chListLt a b = true → chListLt b c = true → chListLt a c = true := by
  intro a
  induction a with
  | nil =>
    intro b c h1 h2
    cases c with
    | nil => cases b <;> simp [chListLt] at h1 h2
    | cons z zs => simp [chListLt]
  | cons x xs ih =>
    intro b c h1 h2
    cases b with
    | nil => simp [chListLt] at h1
    | cons y ys =>
      cases c with
      | nil => simp [chListLt] at h2
      | cons z zs =>
        simp only [chListLt] at h1 h2 ⊢
        split_ifs at h1 h2 ⊢ <;>
          first
            | rfl
            | omega
            | exact ih ys zs h1 h2
            | simp_all

theorem chListLt_conn :
    ∀ (a b : List Char), chListLt a b = false → chListLt b a = false → a = b := by
  intro a
  induction a with
  | nil =>
    intro b h1 _
    cases b with
    | nil => rfl
    | cons y ys => simp [chListLt] at h1
  | cons x xs ih =>
    intro b h1 h2
    cases b with
    | nil => simp [chListLt] at h2
    | cons y ys =>
      simp only [chListLt] at h1 h2
      split_ifs at h1 h2 <;>
        first
          | (have hx : x = y := chToNatInj (by omega)
             have hxs : xs = ys := ih ys h1 h2
             rw [hx, hxs])
          | simp_all
          | omega

theorem chListLt_asymm {a b : List Char} (h : chListLt a b = true) : chListLt b a = false := by
  by_contra hc
  have hba : chListLt b a = true := by
    cases hh : chListLt b a
    · exact absurd hh hc
    · rfl
  have := chListLt_trans a b a h hba
  rw [chListLt_irrefl] at this
  exact Bool.false_ne_true this

instance strLeIsTotal : IsTotal String (fun a b : String => strLe a b = true) := by
  constructor
  intro a b
  by_cases h : chListLt b.data a.data = true
  · right
    simp only [strLe, chListLt_asymm h, Bool.not_false]
  · left
    simp only [strLe, Bool.not_eq_true] at h ⊢
    simp [h]

instance strLeIsTrans : IsTrans String (fun a b : String => strLe a b = true) := by
  constructor
  intro a b c hab hbc
  simp only [strLe, Bool.not_eq_true'] at hab hbc ⊢
  cases hca : chListLt c.data a.data with
  | false => rfl
  | true =>
    exfalso
    cases hab2 : chListLt a.data b.data with
    | true =>
      have hcb := chListLt_trans _ _ _ hca hab2
      rw [hbc] at hcb
      exact Bool.false_ne_true hcb
    | false =>
      have hba : a.data = b.data := chListLt_conn _ _ hab2 hab
      rw [hba, hbc] at hca
      exact Bool.false_ne_true hca

instance strLeIsAntisymm : IsAntisymm String (fun a b : String => strLe a b = true) := by
  constructor
  intro a b hab hba
  simp only [strLe, Bool.not_eq_true'] at hab hba
  exact stringDataInj (chListLt_conn _ _ hba hab)

theorem pysorted_perm (l : List String) : List.Perm (pysorted l) l :=
  List.perm_insertionSort _ l

theorem pysorted_sorted (l : List String) :
    List.Sorted (fun a b : String => strLe a b = true) (pysorted l) :=
  List.sorted_insertionSort _ l

theorem pysorted_eq_of_perm {l₁ l₂ : List String} (h : List.Perm l₁ l₂) :
    pysorted l₁ = pysorted l₂ :=
  List.eq_of_perm_of_sorted ((pysorted_perm l₁).trans (h.trans (pysorted_perm l₂).symm))
    (pysorted_sorted l₁) (pysorted_sorted l₂)

theorem pysorted_mem {a : String} {l : List String} : a ∈ pysorted l ↔ a ∈ l :=
  (pysorted_perm l).mem_iff

/-! ## Inversion and characterization lemmas for the embedded program -/

namespace GenPatch

set_option maxHeartbeats 2000000 in
theorem mainRun_shape (env : Env) (o : Outcome) (h : mainRun env = o) :
    (∃ (p : String) (l : List String) (n m : Nat), o = .ok p l ("Wrote " ++ toString n
      ++ " spec and " ++ toString m ++ " source entries to " ++ p)) ∨
    (∃ msg, o = .exit2 msg) ∨
    (env.parsedConfig = none ∧ o = .uncaught "TOMLDecodeError") := by
  unfold mainRun classify_stage emit_stage at h
  repeat' split at h
  all_goals first
    | (right; left; exact ⟨_, h.symm⟩)
    | (right; right; exact ⟨by assumption, h.symm⟩)
    | (left; exact ⟨_, _, _, _, h.symm⟩)

set_option maxHeartbeats 2000000 in
theorem mainRun_ok_selectors_validated (env : Env) (p : String) (l : List String) (s : String)
    (h : mainRun env = .ok p l s) :
    ∃ cfg u, env.parsedConfig = some cfg ∧
      ensure_selectors_are_ancestors env.isAncestor cfg.commits cfg.ranges (cfg_target cfg)
        = .ok u := by
  unfold mainRun classify_stage emit_stage at h
  repeat' split at h
  all_goals first
    | exact ⟨_, _, by assumption, by assumption⟩
    | injection h

theorem check_commits_ok_iff (isAnc : String → String → Bool) (target : String)
    (commits : List String) :
    check_commits_ancestors isAnc target commits = .ok () ↔
      ∀ c ∈ commits, isAnc c target = true := by
  induction commits with
  | nil => simp [check_commits_ancestors]
  | cons c rest ih =>
    simp only [check_commits_ancestors]
    by_cases hc : isAnc c target
    · simp [hc, ih]
    · simp [hc]

theorem check_ranges_ok_prop (isAnc : String → String → Bool) (target : String)
    (ranges : List String) (h : check_ranges_ancestors isAnc target ranges = .ok ()) :
    ∀ r ∈ ranges, containsDotDot r = true ∧ isAnc (splitOnceDotDot r).2 target = true := by
  induction ranges with
  | nil => simp
  | cons rng rest ih =>
    simp only [check_ranges_ancestors] at h
    intro r hr
    by_cases hdd : containsDotDot rng
    · simp only [hdd, Bool.not_true] at h
      by_cases ha : isAnc (splitOnceDotDot rng).2 target
      · simp only [ha, if_true, if_false, Bool.false_eq_true] at h
        rcases List.mem_cons.mp hr with h1 | h2
        · exact h1 ▸ ⟨hdd, ha⟩
        · exact ih h r h2
      · simp [ha] at h
    · simp [hdd] at h

theorem ensure_ok_parts (isAnc : String → String → Bool) (target : String)
    (commits ranges : List String)
    (h : ensure_selectors_are_ancestors isAnc commits ranges target = .ok ()) :
    check_commits_ancestors isAnc target commits = .ok () ∧
      check_ranges_ancestors isAnc target ranges = .ok () := by
  unfold ensure_selectors_are_ancestors at h
  cases hcc : check_commits_ancestors isAnc target commits with
  | error m => rw [hcc] at h; exact absurd h (by simp)
  | ok u => rw [hcc] at h; exact ⟨by cases u; rfl, h⟩

theorem check_ranges_append (isAnc : String → String → Bool) (target : String)
    (pre rest : List String)
    (hpre : ∀ r ∈ pre, containsDotDot r = true ∧ isAnc (splitOnceDotDot r).2 target = true) :
    check_ranges_ancestors isAnc target (pre ++ rest)
      = check_ranges_ancestors isAnc target rest := by
  induction pre with
  | nil => rfl
  | cons r rs ih =>
    have hr := hpre r (by simp)
    simp only [List.cons_append, check_ranges_ancestors, hr.1, hr.2, Bool.not_true]
    simpa using ih (fun q hq => hpre q (by simp [hq]))

end GenPatch

namespace GenPatch

theorem normalize_loop_all_relative (home repoDir : List String) (prefixes : List String) :
    ∀ (paths eset rels : List String),
      (∀ p ∈ paths, isAbsStr (expanduser home p) = false) →
      normalize_explicit_loop home repoDir prefixes paths eset rels =
        .ok (eset ++ paths.map posixOfRelative,
             rels ++ (paths.map posixOfRelative).filter
               (fun r => is_under_prefixes r prefixes)) := by
  intro paths
  induction paths with
  | nil => intro eset rels _; simp [normalize_explicit_loop]
  | cons p rest ih =>
    intro eset rels h
    have hp := h p (by simp)
    simp only [normalize_explicit_loop, hp, Bool.false_eq_true, if_false]
    rw [ih _ _ (fun q hq => h q (by simp [hq]))]
    simp only [List.map_cons, List.filter_cons]
    by_cases hu : is_under_prefixes (posixOfRelative p) prefixes = true
    · simp [hu]
    · simp only [Bool.not_eq_true] at hu
      simp [hu]

theorem normalize_loop_error_abs (home repoDir : List String) (prefixes : List String) :
    ∀ (paths eset rels : List String) (m : String),
      normalize_explicit_loop home repoDir prefixes paths eset rels = .error m →
      ∃ p ∈ paths, isAbsStr (expanduser home p) = true := by
  intro paths
  induction paths with
  | nil => intro eset rels m h; simp [normalize_explicit_loop] at h
  | cons p rest ih =>
    intro eset rels m h
    cases hp : isAbsStr (expanduser home p) with
    | true => exact ⟨p, by simp, hp⟩
    | false =>
      simp only [normalize_explicit_loop, hp, Bool.false_eq_true, if_false] at h
      obtain ⟨q, hq, hqa⟩ := ih _ _ _ h
      exact ⟨q, by simp [hq], hqa⟩

/-- C1: the spec claims every explicitly requested path is
existence-checked regardless of the prefix filter, with exit code 2 and
the offending list when one is absent.  The code only existence-checks
candidates that entered the collected set, and an explicit selector that
fails the prefix filter never enters it: here `docs/notes.m` is explicitly
selected, absent from the working tree (no file exists at all), outside
the allowed `package/` prefix, and the run still succeeds, writing an
empty manifest. -/
theorem C1_absent_explicit_path_outside_prefixes_not_checked :
    envExplicitOutsidePrefix.parsedConfig
        = some { repo_dir := some "/repo", paths := ["docs/notes.m"] } ∧
    envExplicitOutsidePrefix.fileExists "/repo/docs/notes.m" = false ∧
    mainRun envExplicitOutsidePrefix = .ok "/repo/.magma_overlay.spec" ["\x7b", "\x7d"]
      "Wrote 0 spec and 0 source entries to /repo/.magma_overlay.spec" :=
  ⟨rfl, rfl, by decide⟩

/-- C3: every run that ends in `sys.exit(2)` never reaches the atomic
write, so a pre-existing file at the output path is left unmodified. -/
theorem C3_fatal_exit2_preserves_existing_output (env : Env) (prev : Option (List String))
    (msg : String) (h : mainRun env = .exit2 msg) :
    fileAfterRun prev (mainRun env) = prev := by
  rw [h]; rfl

/-- Witness for C3: a run with a missing configuration file exits fatally
and the pre-existing manifest is untouched. -/
theorem C3_fatal_exit2_preserves_existing_output_witness :
    mainRun envNoConfigFile = .exit2 "config not found" ∧
      fileAfterRun (some ["keep"]) (mainRun envNoConfigFile) = some ["keep"] :=
  ⟨by decide, C3_fatal_exit2_preserves_existing_output envNoConfigFile (some ["keep"])
    "config not found" (by decide)⟩

/-- C4: in grouped output mode, when all non-root directories share a
common ancestor, exactly one nested block is emitted — the ancestor as
header, its direct entries indented two spaces, each deeper subdirectory
as a sub-block whose contents are indented four spaces; the second
conjunct is the spec's scenario `package/a/x.m`, `package/a/y.spec`,
`package/b/z.m`. -/
theorem C4_curly_common_ancestor_single_nested_block :
    (∀ (abs_spec abs_m : List String) (out_dir : String) (include_specs_abs : List String)
        (cd : String),
      curly_common_dir (curly_all_dirs out_dir abs_spec abs_m) = some cd →
      build_output_lines_curly abs_spec abs_m out_dir include_specs_abs =
        include_specs_abs.map (fun p => "+" ++ relpath_posix p out_dir)
          ++ [cd ++ "/", "\x7b"]
          ++ (dir_files out_dir abs_m cd).map (fun f => "  " ++ f)
          ++ (dir_specs out_dir abs_spec cd).map (fun s => "  +" ++ s)
          ++ ((curly_all_dirs out_dir abs_spec abs_m).filter
               (fun d => d ≠ "" ∧ d ≠ cd ∧ strStartsWith d (cd ++ "/"))).flatMap
               (curly_sub_block out_dir abs_spec abs_m (cd ++ "/"))
          ++ ["\x7d"]) ∧
    build_output_lines_curly ["/repo/package/a/y.spec"]
        ["/repo/package/a/x.m", "/repo/package/b/z.m"] "/repo" [] =
      ["package/", "\x7b", "  a/", "  \x7b", "    x.m", "    +y.spec", "  \x7d",
       "  b/", "  \x7b", "    z.m", "  \x7d", "\x7d"] := by
  constructor
  · intro abs_spec abs_m out_dir include_specs_abs cd h
    simp only [build_output_lines_curly, h]
  · decide

/-- Witness for C4: the general single-nested-block equation instantiated
at the spec's grouped-mode scenario. -/
theorem C4_curly_common_ancestor_single_nested_block_witness :
    curly_common_dir (curly_all_dirs "/repo" ["/repo/package/a/y.spec"]
        ["/repo/package/a/x.m", "/repo/package/b/z.m"]) = some "package" ∧
    build_output_lines_curly ["/repo/package/a/y.spec"]
        ["/repo/package/a/x.m", "/repo/package/b/z.m"] "/repo" [] =
      ([] : List String).map (fun p => "+" ++ relpath_posix p "/repo")
        ++ ["package" ++ "/", "\x7b"]
        ++ (dir_files "/repo" ["/repo/package/a/x.m", "/repo/package/b/z.m"] "package").map
             (fun f => "  " ++ f)
        ++ (dir_specs "/repo" ["/repo/package/a/y.spec"] "package").map (fun s => "  +" ++ s)
        ++ ((curly_all_dirs "/repo" ["/repo/package/a/y.spec"]
              ["/repo/package/a/x.m", "/repo/package/b/z.m"]).filter
             (fun d => d ≠ "" ∧ d ≠ "package" ∧ strStartsWith d ("package" ++ "/"))).flatMap
             (curly_sub_block "/repo" ["/repo/package/a/y.spec"]
               ["/repo/package/a/x.m", "/repo/package/b/z.m"] ("package" ++ "/"))
        ++ ["\x7d"] :=
  ⟨by decide, C4_curly_common_ancestor_single_nested_block.1 _ _ _ _ "package" (by decide)⟩

/-- C7 counterexample: a configuration file that exists but fails to
parse raises an uncaught exception (interpreter exit code 1), so the
run neither succeeds with code 0 nor exits with code 2 as the claim
requires. -/
theorem C7_counterexample_malformed_config_uncaught :
    mainRun envMalformedToml = .uncaught "TOMLDecodeError" := by decide

/-- C7 amended: every run either succeeds (printing the one-line summary
with the two counts and the output path), exits with code 2 with a
diagnostic, or — only when the configuration file fails to parse —
terminates by an uncaught exception. -/
theorem C7_exit_code_policy (env : Env) :
    (∃ (p : String) (l : List String) (n m : Nat),
      mainRun env = .ok p l ("Wrote " ++ toString n ++ " spec and " ++ toString m
        ++ " source entries to " ++ p)) ∨
    (∃ msg, mainRun env = .exit2 msg) ∨
    (env.parsedConfig = none ∧ mainRun env = .uncaught "TOMLDecodeError") :=
  mainRun_shape env (mainRun env) rfl

/-- C6: a configured commit selector that is not an ancestor of the
target, or a range selector `A..B` whose tip `B` is not an ancestor of
the target, makes selector validation fail; consequently such a run can
only exit fatally (code 2), and no output file is written. -/
theorem C6_unancestral_selectors_are_fatal :
    (∀ (isAnc : String → String → Bool) (commits ranges : List String) (target : String),
      ((∃ c ∈ commits, isAnc c target = false) ∨
       (∃ rng ∈ ranges, containsDotDot rng = true ∧
          isAnc (splitOnceDotDot rng).2 target = false)) →
      ∃ m, ensure_selectors_are_ancestors isAnc commits ranges target = .error m) ∧
    (∀ (env : Env) (prev : Option (List String)) (cfg : Config),
      env.parsedConfig = some cfg →
      ((∃ c ∈ cfg.commits, env.isAncestor c (cfg_target cfg) = false) ∨
       (∃ rng ∈ cfg.ranges, containsDotDot rng = true ∧
          env.isAncestor (splitOnceDotDot rng).2 (cfg_target cfg) = false)) →
      (∃ msg, mainRun env = .exit2 msg) ∧ fileAfterRun prev (mainRun env) = prev) := by
  constructor
  · intro isAnc commits ranges target hbad
    cases hres : ensure_selectors_are_ancestors isAnc commits ranges target with
    | error m => exact ⟨m, rfl⟩
    | ok u =>
      exfalso
      cases u
      obtain ⟨hcc, hcr⟩ := ensure_ok_parts isAnc target commits ranges hres
      rcases hbad with ⟨c, hcmem, hcfalse⟩ | ⟨rng, hrmem, _, hfalse⟩
      · have ht := (check_commits_ok_iff isAnc target commits).mp hcc c hcmem
        rw [hcfalse] at ht
        exact Bool.false_ne_true ht
      · have ht := (check_ranges_ok_prop isAnc target ranges hcr rng hrmem).2
        rw [hfalse] at ht
        exact Bool.false_ne_true ht
  · intro env prev cfg hcfg hbad
    rcases mainRun_shape env (mainRun env) rfl with ⟨p, l, n, m, hok⟩ | ⟨msg, hex⟩ | ⟨hnone, _⟩
    · exfalso
      obtain ⟨cfg2, u, hc2, hens⟩ := mainRun_ok_selectors_validated env p l _ hok
      rw [hcfg] at hc2
      injection hc2 with hc2e
      subst hc2e
      cases u
      obtain ⟨hcc, hcr⟩ := ensure_ok_parts _ _ _ _ hens
      rcases hbad with ⟨c, hcmem, hcfalse⟩ | ⟨rng, hrmem, _, hfalse⟩
      · have ht := (check_commits_ok_iff _ _ _).mp hcc c hcmem
        rw [hcfalse] at ht
        exact Bool.false_ne_true ht
      · have ht := (check_ranges_ok_prop _ _ _ hcr rng hrmem).2
        rw [hfalse] at ht
        exact Bool.false_ne_true ht
    · exact ⟨⟨msg, hex⟩, by rw [hex]; rfl⟩
    · rw [hcfg] at hnone
      exact absurd hnone (by simp)

/-- Witness for C6: selecting commit `c1` in a repository where it is not
an ancestor of the target makes the run exit 2 and leaves the existing
output untouched. -/
theorem C6_unancestral_selectors_are_fatal_witness :
    (∃ msg, mainRun envBadCommitSelector = .exit2 msg) ∧
      fileAfterRun (some ["keep"]) (mainRun envBadCommitSelector) = some ["keep"] :=
  C6_unancestral_selectors_are_fatal.2 envBadCommitSelector (some ["keep"])
    { repo_dir := some "/repo", commits := ["c1"] } rfl (Or.inl (by decide))

/-- C10: a range selector with no `".."` fails selector validation with
the `range must be A..B` diagnostic (when validation reaches it: all
commits ancestral, all earlier ranges well-formed and ancestral), and any
run whose configuration contains such a selector cannot succeed — it
exits fatally, before any diff is collected, and writes nothing. -/
theorem C10_dotless_range_selector_is_fatal :
    (∀ (isAnc : String → String → Bool) (commits : List String) (target : String)
        (pre post : List String) (rng : String),
      (∀ c ∈ commits, isAnc c target = true) →
      (∀ r ∈ pre, containsDotDot r = true ∧ isAnc (splitOnceDotDot r).2 target = true) →
      containsDotDot rng = false →
      ensure_selectors_are_ancestors isAnc commits (pre ++ rng :: post) target
        = .error ("range must be A..B, got: " ++ rng)) ∧
    (∀ (env : Env) (prev : Option (List String)) (cfg : Config) (rng : String),
      env.parsedConfig = some cfg → rng ∈ cfg.ranges → containsDotDot rng = false →
      (∃ msg, mainRun env = .exit2 msg) ∧ fileAfterRun prev (mainRun env) = prev) := by
  constructor
  · intro isAnc commits target pre post rng hcomm hpre hdd
    unfold ensure_selectors_are_ancestors
    rw [(check_commits_ok_iff isAnc target commits).mpr hcomm]
    rw [check_ranges_append isAnc target pre (rng :: post) hpre]
    simp [check_ranges_ancestors, hdd]
  · intro env prev cfg rng hcfg hmem hdd
    rcases mainRun_shape env (mainRun env) rfl with ⟨p, l, n, m, hok⟩ | ⟨msg, hex⟩ | ⟨hnone, _⟩
    · exfalso
      obtain ⟨cfg2, u, hc2, hens⟩ := mainRun_ok_selectors_validated env p l _ hok
      rw [hcfg] at hc2
      injection hc2 with hc2e
      subst hc2e
      cases u
      obtain ⟨_, hcr⟩ := ensure_ok_parts _ _ _ _ hens
      have ht := (check_ranges_ok_prop _ _ _ hcr rng hmem).1
      rw [hdd] at ht
      exact Bool.false_ne_true ht
    · exact ⟨⟨msg, hex⟩, by rw [hex]; rfl⟩
    · rw [hcfg] at hnone
      exact absurd hnone (by simp)

/-- Witness for C10: the range selector `"abc"` makes the run exit 2
with nothing written. -/
theorem C10_dotless_range_selector_is_fatal_witness :
    (∃ msg, mainRun envMalformedRange = .exit2 msg) ∧
      fileAfterRun (some ["keep"]) (mainRun envMalformedRange) = some ["keep"] :=
  C10_dotless_range_selector_is_fatal.2 envMalformedRange (some ["keep"])
    { repo_dir := some "/repo", ranges := ["abc"] } "abc" rfl (by decide) (by decide)

/-- C9: only absolute explicit selectors are containment-checked.  A list
of relative selectors is always accepted, with a result that does not
depend on the repository root at all (so `".."` segments pass through
unchecked), and any fatal outcome of explicit-path normalization requires
an absolute selector. -/
theorem C9_relative_explicit_selectors_bypass_containment :
    (∀ (home repoDir prefixes paths : List String),
      (∀ p ∈ paths, isAbsStr (expanduser home p) = false) →
      normalize_and_apply_explicit_paths home paths repoDir prefixes =
        .ok (paths.map posixOfRelative,
             (paths.map posixOfRelative).filter (fun r => is_under_prefixes r prefixes))) ∧
    (∀ (home repoDir prefixes paths : List String) (m : String),
      normalize_and_apply_explicit_paths home paths repoDir prefixes = .error m →
      ∃ p ∈ paths, isAbsStr (expanduser home p) = true) := by
  constructor
  · intro home repoDir prefixes paths h
    unfold normalize_and_apply_explicit_paths
    simpa using normalize_loop_all_relative home repoDir prefixes paths [] [] h
  · intro home repoDir prefixes paths m h
    exact normalize_loop_error_abs home repoDir prefixes paths [] [] m h

/-- Witness for C9: the relative selector `"../escape.m"` is admitted
against any repository root, and resolving it against `/repo` at
classification time escapes the repository. -/
theorem C9_relative_explicit_selectors_bypass_containment_witness :
    normalize_and_apply_explicit_paths ["home", "u"] ["../escape.m"] ["repo"] ["package/"] =
        .ok (["../escape.m"], []) ∧
      joinAbs (normSegs (["repo"] ++ pathParts "../escape.m")) = "/escape.m" ∧
      strStartsWith "/escape.m" "/repo/" = false :=
  ⟨by
    have h := C9_relative_explicit_selectors_bypass_containment.1 ["home", "u"] ["repo"]
      ["package/"] ["../escape.m"] (by decide)
    simpa using h,
   by decide, by decide⟩

theorem pysorted_map_mono (f : String → String) (l : List String)
    (hm : ∀ a ∈ l, ∀ b ∈ l, strLe (f a) (f b) = strLe a b) :
    pysorted (l.map f) = (pysorted l).map f := by
  apply List.eq_of_perm_of_sorted (r := fun a b : String => strLe a b = true)
  · exact (pysorted_perm (l.map f)).trans ((pysorted_perm l).map f).symm
  · exact pysorted_sorted _
  · rw [List.Sorted, List.pairwise_map]
    refine List.Pairwise.imp_of_mem ?_ (pysorted_sorted l)
    intro a b ha hb hab
    rw [hm a (pysorted_mem.mp ha) b (pysorted_mem.mp hb)]
    exact hab

/-- C5: in flat output mode the forced entries (always `+`-prefixed) come
first; in `spec-first` order the manifest group precedes the source group
and — whenever rendering relative to the output directory is
order-preserving on the classified sets — each group is alphabetically
sorted by its final line text; for every other order value the two groups
merge into a single list sorted on the final rendered line text, `+`
prefix included. -/
theorem C5_flat_ordering :
    (∀ (abs_spec abs_m : List String) (out_dir : String) (include_specs_abs : List String),
      (∀ a ∈ abs_spec, ∀ b ∈ abs_spec,
        strLe ("+" ++ relpath_posix a out_dir) ("+" ++ relpath_posix b out_dir) = strLe a b) →
      (∀ a ∈ abs_m, ∀ b ∈ abs_m,
        strLe (relpath_posix a out_dir) (relpath_posix b out_dir) = strLe a b) →
      build_output_lines_flat abs_spec abs_m "spec-first" out_dir include_specs_abs =
        include_specs_abs.map (fun p => "+" ++ relpath_posix p out_dir)
          ++ pysorted (abs_spec.map (fun p => "+" ++ relpath_posix p out_dir))
          ++ pysorted (abs_m.map (fun p => relpath_posix p out_dir))) ∧
    (∀ (abs_spec abs_m : List String) (order_mode : String) (out_dir : String)
        (include_specs_abs : List String),
      order_mode ≠ "spec-first" →
      build_output_lines_flat abs_spec abs_m order_mode out_dir include_specs_abs =
        include_specs_abs.map (fun p => "+" ++ relpath_posix p out_dir)
          ++ pysorted (abs_spec.map (fun p => "+" ++ relpath_posix p out_dir)
               ++ abs_m.map (fun p => relpath_posix p out_dir)) ∧
      List.Sorted (fun a b : String => strLe a b = true)
        (pysorted (abs_spec.map (fun p => "+" ++ relpath_posix p out_dir)
          ++ abs_m.map (fun p => relpath_posix p out_dir)))) := by
  constructor
  · intro abs_spec abs_m out_dir include_specs_abs hm1 hm2
    unfold build_output_lines_flat
    rw [if_pos rfl, pysorted_map_mono _ _ hm1, pysorted_map_mono _ _ hm2]
  · intro abs_spec abs_m order_mode out_dir include_specs_abs ho
    unfold build_output_lines_flat
    rw [if_neg ho]
    exact ⟨rfl, pysorted_sorted _⟩

/-- Witness for C5: the spec's flat-mode scenario — manifest file
`package/y.spec` and source file `package/a/x.m` render as
`+package/y.spec` before `package/a/x.m`. -/
theorem C5_flat_ordering_witness :
    build_output_lines_flat ["/repo/package/y.spec"] ["/repo/package/a/x.m"] "spec-first"
        "/repo" [] =
      ([] : List String).map (fun p => "+" ++ relpath_posix p "/repo")
        ++ pysorted (["/repo/package/y.spec"].map (fun p => "+" ++ relpath_posix p "/repo"))
        ++ pysorted (["/repo/package/a/x.m"].map (fun p => relpath_posix p "/repo")) ∧
    build_output_lines_flat ["/repo/package/y.spec"] ["/repo/package/a/x.m"] "spec-first"
        "/repo" [] = ["+package/y.spec", "package/a/x.m"] :=
  ⟨C5_flat_ordering.1 ["/repo/package/y.spec"] ["/repo/package/a/x.m"] "/repo" []
    (by decide) (by decide), by decide⟩

theorem dir_files_perm {am am2 : List String} (out_dir : String) (h : List.Perm am am2) :
    ∀ d, dir_files out_dir am d = dir_files out_dir am2 d := by
  intro d
  exact pysorted_eq_of_perm ((h.filter _).map _)

theorem dir_specs_perm {asp asp2 : List String} (out_dir : String) (h : List.Perm asp asp2) :
    ∀ d, dir_specs out_dir asp d = dir_specs out_dir asp2 d := by
  intro d
  exact pysorted_eq_of_perm (((h.filter _).map _).dedup)

theorem curly_all_dirs_perm {asp asp2 am am2 : List String} (out_dir : String)
    (h1 : List.Perm asp asp2) (h2 : List.Perm am am2) :
    curly_all_dirs out_dir asp am = curly_all_dirs out_dir asp2 am2 :=
  pysorted_eq_of_perm (((((h2.map _).append (h1.map _)).dedup).map _).dedup)

/-- C8: the rendered output depends only on the classified path sets and
the configuration, not on the order in which the sets are iterated: both
formatters are invariant under permutation of the spec set and of the
source set. -/
theorem C8_output_independent_of_set_order :
    (∀ (abs_spec abs_spec2 abs_m abs_m2 : List String) (order_mode out_dir : String)
        (include_specs_abs : List String),
      List.Perm abs_spec abs_spec2 → List.Perm abs_m abs_m2 →
      build_output_lines_flat abs_spec abs_m order_mode out_dir include_specs_abs =
        build_output_lines_flat abs_spec2 abs_m2 order_mode out_dir include_specs_abs) ∧
    (∀ (abs_spec abs_spec2 abs_m abs_m2 : List String) (out_dir : String)
        (include_specs_abs : List String),
      List.Perm abs_spec abs_spec2 → List.Perm abs_m abs_m2 →
      build_output_lines_curly abs_spec abs_m out_dir include_specs_abs =
        build_output_lines_curly abs_spec2 abs_m2 out_dir include_specs_abs) := by
  constructor
  · intro abs_spec abs_spec2 abs_m abs_m2 order_mode out_dir include_specs_abs h1 h2
    unfold build_output_lines_flat
    by_cases ho : order_mode = "spec-first"
    · rw [if_pos ho, if_pos ho, pysorted_eq_of_perm h1, pysorted_eq_of_perm h2]
    · rw [if_neg ho, if_neg ho, pysorted_eq_of_perm ((h1.map _).append (h2.map _))]
  · intro abs_spec abs_spec2 abs_m abs_m2 out_dir include_specs_abs h1 h2
    have hdf : dir_files out_dir abs_m = dir_files out_dir abs_m2 :=
      funext (dir_files_perm out_dir h2)
    have hds : dir_specs out_dir abs_spec = dir_specs out_dir abs_spec2 :=
      funext (dir_specs_perm out_dir h1)
    have hsb : curly_sub_block out_dir abs_spec abs_m
        = curly_sub_block out_dir abs_spec2 abs_m2 := by
      funext pre d
      unfold curly_sub_block
      rw [dir_files_perm out_dir h2, dir_specs_perm out_dir h1]
    unfold build_output_lines_curly
    rw [curly_all_dirs_perm out_dir h1 h2, hdf, hds, hsb]

/-- Witness for C8: both formatters give identical output on reordered
spec and source sets. -/
theorem C8_output_independent_of_set_order_witness :
    build_output_lines_flat ["/repo/package/b.spec", "/repo/package/a.spec"]
        ["/repo/package/z.m", "/repo/package/y.m"] "spec-first" "/repo" [] =
      build_output_lines_flat ["/repo/package/a.spec", "/repo/package/b.spec"]
        ["/repo/package/y.m", "/repo/package/z.m"] "spec-first" "/repo" [] ∧
    build_output_lines_curly ["/repo/package/b.spec", "/repo/package/a.spec"]
        ["/repo/package/z.m", "/repo/package/y.m"] "/repo" [] =
      build_output_lines_curly ["/repo/package/a.spec", "/repo/package/b.spec"]
        ["/repo/package/y.m", "/repo/package/z.m"] "/repo" [] :=
  ⟨C8_output_independent_of_set_order.1 _ _ _ _ "spec-first" "/repo" []
    (by decide) (by decide),
   C8_output_independent_of_set_order.2 _ _ _ _ "/repo" [] (by decide) (by decide)⟩

theorem splitOnP_chunks_no_sep {α : Type} [DecidableEq α] (p : α → Bool) :
    ∀ (l : List α) (c : List α), c ∈ l.splitOnP p → ∀ x ∈ c, ¬ p x = true := by
  intro l
  induction l with
  | nil =>
    intro c hc x hx
    rw [List.splitOnP_nil] at hc
    simp at hc
    subst hc
    simp at hx
  | cons a l ih =>
    intro c hc x hx
    rw [List.splitOnP_cons] at hc
    by_cases ha : p a = true
    · rw [if_pos ha] at hc
      rcases List.mem_cons.mp hc with h1 | h2
      · subst h1; simp at hx
      · exact ih c h2 x hx
    · rw [if_neg ha] at hc
      cases hsp : l.splitOnP p with
      | nil => exact absurd hsp (List.splitOnP_ne_nil p l)
      | cons hd tl =>
        rw [hsp] at hc
        simp only [List.modifyHead] at hc
        rcases List.mem_cons.mp hc with h1 | h2
        · subst h1
          rcases List.mem_cons.mp hx with hx1 | hx2
          · subst hx1; exact ha
          · exact ih hd (by rw [hsp]; exact List.mem_cons_self hd tl) x hx2
        · exact ih c (by rw [hsp]; exact List.mem_cons_of_mem hd h2) x hx

theorem strSplitOnChar_no_sep (sep : Char) (s : String) :
    ∀ c ∈ strSplitOnChar sep s, sep ∉ c.data := by
  intro c hc hmem
  unfold strSplitOnChar at hc
  obtain ⟨cl, hcl, hmk⟩ := List.mem_map.mp hc
  have := splitOnP_chunks_no_sep (· == sep) s.data cl hcl sep (by subst hmk; exact hmem)
  simp at this

theorem pathParts_good (s : String) : ∀ x ∈ pathParts s, x ≠ "" ∧ x ≠ "." ∧ '/' ∉ x.data := by
  intro x hx
  unfold pathParts at hx
  have hmem := List.mem_filter.mp hx
  have hns := strSplitOnChar_no_sep '/' s x hmem.1
  have hprop := of_decide_eq_true hmem.2
  exact ⟨hprop.1, hprop.2, hns⟩

theorem foldl_norm_no_dotdot :
    ∀ (l acc : List String), ".." ∉ l →
      List.foldl (fun acc c => if c = ".." then acc.dropLast else acc ++ [c]) acc l
        = acc ++ l := by
  intro l
  induction l with
  | nil => intro acc _; simp
  | cons c rest ih =>
    intro acc h
    have hc : c ≠ ".." := fun he => h (he ▸ List.mem_cons_self c rest)
    simp only [List.foldl_cons, if_neg hc]
    rw [ih _ (fun hm => h (List.mem_cons_of_mem c hm))]
    simp

theorem normSegs_eq_self (l : List String) (h : ".." ∉ l) : normSegs l = l := by
  unfold normSegs
  simpa using foldl_norm_no_dotdot l [] h

theorem foldl_norm_replicate (k : Nat) :
    ∀ (l : List String),
      List.foldl (fun acc c => if c = ".." then acc.dropLast else acc ++ [c]) l
          (List.replicate k "..")
        = l.take (l.length - k) := by
  induction k with
  | zero => intro l; simp
  | succ n ih =>
    intro l
    simp only [List.replicate_succ, List.foldl_cons, if_true]
    rw [ih l.dropLast, List.dropLast_eq_take, List.take_take, List.length_take]
    congr 1
    omega

theorem normSegs_append (a b : List String) :
    normSegs (a ++ b)
      = List.foldl (fun acc c => if c = ".." then acc.dropLast else acc ++ [c]) (normSegs a) b := by
  unfold normSegs
  rw [List.foldl_append]

theorem normSegs_sub : ∀ (l : List String) (x : String), x ∈ normSegs l → x ∈ l := by
  have key : ∀ (l acc : List String) (x : String),
      x ∈ List.foldl (fun acc c => if c = ".." then acc.dropLast else acc ++ [c]) acc l →
        x ∈ acc ∨ x ∈ l := by
    intro l
    induction l with
    | nil => intro acc x hx; exact Or.inl hx
    | cons c rest ih =>
      intro acc x hx
      simp only [List.foldl_cons] at hx
      rcases ih _ x hx with hin | hin
      · by_cases hc : c = ".."
        · rw [if_pos hc] at hin
          exact Or.inl ((List.dropLast_sublist acc).subset hin)
        · rw [if_neg hc] at hin
          rcases List.mem_append.mp hin with h1 | h2
          · exact Or.inl h1
          · simp at h2
            subst h2
            exact Or.inr (List.mem_cons_self x rest)
      · exact Or.inr (List.mem_cons_of_mem c hin)
  intro l x hx
  rcases key l [] x hx with h | h
  · simp at h
  · exact h

theorem normSegs_no_dotdot : ∀ (l : List String), ".." ∉ normSegs l := by
  have key : ∀ (l acc : List String), ".." ∉ acc →
      ".." ∉ List.foldl (fun acc c => if c = ".." then acc.dropLast else acc ++ [c]) acc l := by
    intro l
    induction l with
    | nil => intro acc h; simpa using h
    | cons c rest ih =>
      intro acc h
      simp only [List.foldl_cons]
      by_cases hc : c = ".."
      · rw [if_pos hc]
        exact ih _ (fun hm => h ((List.dropLast_sublist acc).subset hm))
      · rw [if_neg hc]
        refine ih _ ?_
        intro hm
        rcases List.mem_append.mp hm with h1 | h2
        · exact h h1
        · simp at h2
          exact hc h2.symm
  intro l
  exact key l [] (by simp)

theorem commonPrefixLen_le_left : ∀ a b : List String, commonPrefixLen a b ≤ a.length := by
  intro a
  induction a with
  | nil => intro b; cases b <;> simp [commonPrefixLen]
  | cons x xs ih =>
    intro b
    cases b with
    | nil => simp [commonPrefixLen]
    | cons y ys =>
      simp only [commonPrefixLen]
      by_cases h : x = y
      · rw [if_pos h]
        simpa using ih ys
      · rw [if_neg h]
        simp

theorem commonPrefixLen_le_right : ∀ a b : List String, commonPrefixLen a b ≤ b.length := by
  intro a
  induction a with
  | nil => intro b; cases b <;> simp [commonPrefixLen]
  | cons x xs ih =>
    intro b
    cases b with
    | nil => simp [commonPrefixLen]
    | cons y ys =>
      simp only [commonPrefixLen]
      by_cases h : x = y
      · rw [if_pos h]
        simpa using ih ys
      · rw [if_neg h]
        simp

theorem commonPrefixLen_take :
    ∀ a b : List String, a.take (commonPrefixLen a b) = b.take (commonPrefixLen a b) := by
  intro a
  induction a with
  | nil => intro b; cases b <;> simp [commonPrefixLen]
  | cons x xs ih =>
    intro b
    cases b with
    | nil => simp [commonPrefixLen]
    | cons y ys =>
      simp only [commonPrefixLen]
      by_cases h : x = y
      · rw [if_pos h]
        simp [h, ih ys]
      · rw [if_neg h]
        simp

theorem splitOn_cons_self (l : List Char) :
    ('/' :: l).splitOn '/' = [] :: l.splitOn '/' := by
  simp [List.splitOn, List.splitOnP_cons]

theorem pathParts_strJoin (segs : List String) (hne : segs ≠ [])
    (h : ∀ s ∈ segs, s ≠ "" ∧ s ≠ "." ∧ '/' ∉ s.data) :
    pathParts (strJoin "/" segs) = segs := by
  unfold pathParts strSplitOnChar strJoin
  rw [show ("/" : String).data = ['/'] from rfl]
  have hx : ∀ l ∈ segs.map String.data, '/' ∉ l := by
    intro l hl
    obtain ⟨s, hs, rfl⟩ := List.mem_map.mp hl
    exact (h s hs).2.2
  have hls : segs.map String.data ≠ [] := by simpa using hne
  rw [show (String.mk (List.intercalate ['/'] (segs.map String.data))).data
      = ['/'].intercalate (segs.map String.data) from rfl]
  rw [List.splitOn_intercalate (segs.map String.data) '/' hx hls, List.map_map]
  rw [show (String.mk ∘ String.data) = id from funext fun s => rfl, List.map_id]
  apply List.filter_eq_self.mpr
  intro a ha
  have hp := h a ha
  simp [hp.1, hp.2.1]

theorem strSplit_joinAbs (segs : List String) :
    strSplitOnChar '/' (joinAbs segs) = "" :: strSplitOnChar '/' (strJoin "/" segs) := by
  unfold joinAbs strSplitOnChar
  rw [String.data_append, show ("/" : String).data = ['/'] from rfl,
    List.singleton_append, splitOn_cons_self]
  rfl

theorem pathParts_joinAbs_strip (segs : List String) :
    pathParts (joinAbs segs) = pathParts (strJoin "/" segs) := by
  unfold pathParts
  rw [strSplit_joinAbs]
  simp [List.filter_cons]

theorem pathParts_joinAbs (segs : List String)
    (h : ∀ s ∈ segs, s ≠ "" ∧ s ≠ "." ∧ '/' ∉ s.data) :
    pathParts (joinAbs segs) = segs := by
  cases segs with
  | nil => decide
  | cons a rest =>
    rw [pathParts_joinAbs_strip]
    exact pathParts_strJoin (a :: rest) (by simp) h

theorem resolve_of_relpath (segs : List String) (out : String)
    (hg : ∀ s ∈ segs, s ≠ "" ∧ s ≠ "." ∧ '/' ∉ s.data) (hnd : ".." ∉ segs) :
    normSegs (pathParts out ++ pathParts (relpath_posix (joinAbs segs) out)) = segs := by
  have hpl : normSegs (pathParts (joinAbs segs)) = segs := by
    rw [pathParts_joinAbs segs hg]
    exact normSegs_eq_self segs hnd
  have hile : commonPrefixLen segs (normSegs (pathParts out))
      ≤ (normSegs (pathParts out)).length := commonPrefixLen_le_right _ _
  have hilel : commonPrefixLen segs (normSegs (pathParts out)) ≤ segs.length :=
    commonPrefixLen_le_left _ _
  simp only [relpath_posix, hpl]
  by_cases hrel : (List.replicate ((normSegs (pathParts out)).length
      - commonPrefixLen segs (normSegs (pathParts out))) ".."
      ++ segs.drop (commonPrefixLen segs (normSegs (pathParts out)))).isEmpty = true
  · rw [if_pos hrel]
    have hdot : pathParts "." = [] := by decide
    rw [hdot, List.append_nil]
    rw [List.isEmpty_iff, List.append_eq_nil] at hrel
    have h1 : (normSegs (pathParts out)).length
        - commonPrefixLen segs (normSegs (pathParts out)) = 0 := by
      have := hrel.1
      have hl := congrArg List.length this
      simpa using hl
    have h2 : segs.length ≤ commonPrefixLen segs (normSegs (pathParts out)) := by
      have := hrel.2
      have hd := List.drop_eq_nil_iff_le.mp this
      omega
    have hieq : commonPrefixLen segs (normSegs (pathParts out)) = segs.length := by omega
    have hieq2 : commonPrefixLen segs (normSegs (pathParts out))
        = (normSegs (pathParts out)).length := by omega
    have htake := commonPrefixLen_take segs (normSegs (pathParts out))
    rw [hieq] at htake
    rw [List.take_length] at htake
    rw [hieq] at hieq2
    rw [List.take_of_length_le (le_of_eq hieq2.symm)] at htake
    exact htake.symm
  · rw [if_neg hrel]
    have hrelne : List.replicate ((normSegs (pathParts out)).length
        - commonPrefixLen segs (normSegs (pathParts out))) ".."
        ++ segs.drop (commonPrefixLen segs (normSegs (pathParts out))) ≠ [] := by
      intro he
      rw [← List.isEmpty_iff] at he
      exact hrel he
    have hgood : ∀ s ∈ List.replicate ((normSegs (pathParts out)).length
        - commonPrefixLen segs (normSegs (pathParts out))) ".."
        ++ segs.drop (commonPrefixLen segs (normSegs (pathParts out))),
        s ≠ "" ∧ s ≠ "." ∧ '/' ∉ s.data := by
      intro s hs
      rcases List.mem_append.mp hs with h1 | h2
      · have := List.eq_of_mem_replicate h1
        subst this
        refine ⟨by decide, by decide, by decide⟩
      · exact hg s (List.mem_of_mem_drop h2)
    rw [pathParts_strJoin _ hrelne hgood]
    rw [normSegs_append, List.foldl_append, foldl_norm_replicate]
    rw [foldl_norm_no_dotdot _ _
      (fun hm => hnd (List.mem_of_mem_drop hm))]
    have hlen : (normSegs (pathParts out)).length
        - ((normSegs (pathParts out)).length
          - commonPrefixLen segs (normSegs (pathParts out)))
        = commonPrefixLen segs (normSegs (pathParts out)) := by omega
    rw [hlen]
    rw [← commonPrefixLen_take segs (normSegs (pathParts out))]
    exact List.take_append_drop _ segs

theorem resolve_relpath_of_resolved (q out : String) :
    joinAbs (normSegs (pathParts out ++ pathParts (relpath_posix (resolveAbsStr q) out)))
      = resolveAbsStr q := by
  unfold resolveAbsStr
  exact congrArg joinAbs (resolve_of_relpath (normSegs (pathParts q)) out
    (fun s hs => pathParts_good q s (normSegs_sub _ s hs)) (normSegs_no_dotdot (pathParts q)))

theorem classify_fold_spec_mem (fe : String → Bool) (repoDir explicit_set : List String) :
    ∀ (l : List String) (st : List String × List String × List String × List String)
      (p : String),
      p ∈ (l.foldl (classify_step fe repoDir explicit_set) st).1 →
      p ∈ st.1 ∨ ∃ rel ∈ l, p = joinAbs (repoDir ++ pathParts rel)
        ∧ fe (joinAbs (normSegs (repoDir ++ pathParts rel))) = true
        ∧ strEndsWithPy rel ".spec" = true := by
  intro l
  induction l with
  | nil => intro st p hp; exact Or.inl hp
  | cons rel rest ih =>
    intro st p hp
    rw [List.foldl_cons] at hp
    rcases ih _ p hp with hin | ⟨r, hr, he⟩
    · unfold classify_step at hin
      split_ifs at hin with h1 h2 h3 h4
      · exact Or.inl hin
      · exact Or.inl hin
      · rcases List.mem_append.mp hin with ha | hb
        · exact Or.inl ha
        · simp only [List.mem_singleton] at hb
          subst hb
          refine Or.inr ⟨rel, List.mem_cons_self rel rest, rfl, ?_, h3⟩
          simpa using h1
      · exact Or.inl hin
      · exact Or.inl hin
    · exact Or.inr ⟨r, List.mem_cons_of_mem rel hr, he⟩

theorem classify_fold_m_mem (fe : String → Bool) (repoDir explicit_set : List String) :
    ∀ (l : List String) (st : List String × List String × List String × List String)
      (p : String),
      p ∈ (l.foldl (classify_step fe repoDir explicit_set) st).2.1 →
      p ∈ st.2.1 ∨ ∃ rel ∈ l, p = joinAbs (repoDir ++ pathParts rel)
        ∧ fe (joinAbs (normSegs (repoDir ++ pathParts rel))) = true
        ∧ strEndsWithPy rel ".m" = true := by
  intro l
  induction l with
  | nil => intro st p hp; exact Or.inl hp
  | cons rel rest ih =>
    intro st p hp
    rw [List.foldl_cons] at hp
    rcases ih _ p hp with hin | ⟨r, hr, he⟩
    · unfold classify_step at hin
      split_ifs at hin with h1 h2 h3 h4
      · exact Or.inl hin
      · exact Or.inl hin
      · exact Or.inl hin
      · rcases List.mem_append.mp hin with ha | hb
        · exact Or.inl ha
        · simp only [List.mem_singleton] at hb
          subst hb
          refine Or.inr ⟨rel, List.mem_cons_self rel rest, rfl, ?_, h4⟩
          simpa using h1
      · exact Or.inl hin
    · exact Or.inr ⟨r, List.mem_cons_of_mem rel hr, he⟩

theorem build_flat_mem (abs_spec abs_m : List String) (order_mode out_dir : String)
    (forced : List String) :
    ∀ line ∈ build_output_lines_flat abs_spec abs_m order_mode out_dir forced,
      (∃ f ∈ forced, line = "+" ++ relpath_posix f out_dir) ∨
      (∃ p ∈ abs_spec, line = "+" ++ relpath_posix p out_dir) ∨
      (∃ p ∈ abs_m, line = relpath_posix p out_dir) := by
  intro line hline
  unfold build_output_lines_flat at hline
  by_cases ho : order_mode = "spec-first"
  · rw [if_pos ho] at hline
    rcases List.mem_append.mp hline with h12 | h3
    · rcases List.mem_append.mp h12 with h1 | h2
      · obtain ⟨f, hf, rfl⟩ := List.mem_map.mp h1
        exact Or.inl ⟨f, hf, rfl⟩
      · obtain ⟨p, hp, rfl⟩ := List.mem_map.mp h2
        exact Or.inr (Or.inl ⟨p, pysorted_mem.mp hp, rfl⟩)
    · obtain ⟨p, hp, rfl⟩ := List.mem_map.mp h3
      exact Or.inr (Or.inr ⟨p, pysorted_mem.mp hp, rfl⟩)
  · rw [if_neg ho] at hline
    rcases List.mem_append.mp hline with h1 | h2
    · obtain ⟨f, hf, rfl⟩ := List.mem_map.mp h1
      exact Or.inl ⟨f, hf, rfl⟩
    · rcases List.mem_append.mp (pysorted_mem.mp h2) with ha | hb
      · obtain ⟨p, hp, rfl⟩ := List.mem_map.mp ha
        exact Or.inr (Or.inl ⟨p, hp, rfl⟩)
      · obtain ⟨p, hp, rfl⟩ := List.mem_map.mp hb
        exact Or.inr (Or.inr ⟨p, hp, rfl⟩)

/-- C2 counterexample: a forced `include_specs` entry is emitted without
any existence check.  Here the configuration forces `missing_inc.spec`,
no file exists in the working tree, the run succeeds, and the emitted
line `+missing_inc.spec`, stripped of `+` and resolved against the
output directory, names a file that does not exist — so the claim's
"exists in the working tree" requirement fails for forced entries. -/
theorem C2_counterexample_forced_include_missing :
    mainRun envForcedIncludeMissing = .ok "/repo/.magma_overlay.spec"
      ["\x7b", "+missing_inc.spec", "\x7d"]
      "Wrote 0 spec and 0 source entries to /repo/.magma_overlay.spec" ∧
    envForcedIncludeMissing.fileExists
      (joinAbs (normSegs (pathParts "/repo" ++ pathParts "missing_inc.spec"))) = false :=
  ⟨by decide, rfl⟩

/-- C2 amended: in flat mode every output line other than the forced
`include_specs` entries comes from a collected candidate that passed the
prefix filter and existed in the working tree at classification time, and
the line, stripped of its optional `+` and resolved against the output
file's directory, resolves to exactly that file; forced entries bypass
both the prefix filter and the existence check. -/
theorem C2_flat_lines_resolve_to_existing_prefixed_files
    (fe : String → Bool) (repoDir rel_paths explicit_set prefixes : List String)
    (order_mode out_dir : String) (forced : List String)
    (hrw : ∀ s ∈ repoDir, s ≠ "" ∧ s ≠ "." ∧ '/' ∉ s.data)
    (hp : ∀ rel ∈ rel_paths, is_under_prefixes rel prefixes = true) :
    ∀ line ∈ build_output_lines_flat
        (((materialize_and_classify fe repoDir rel_paths explicit_set).1).map
          resolveAbsStr).dedup
        (((materialize_and_classify fe repoDir rel_paths explicit_set).2.1).map
          resolveAbsStr).dedup
        order_mode out_dir forced,
      (∃ f ∈ forced, line = "+" ++ relpath_posix f out_dir) ∨
      (∃ rel ∈ rel_paths, ∃ r : String,
        (line = "+" ++ r ∨ line = r) ∧
        is_under_prefixes rel prefixes = true ∧
        fe (joinAbs (normSegs (repoDir ++ pathParts rel))) = true ∧
        joinAbs (normSegs (pathParts out_dir ++ pathParts r)) =
          joinAbs (normSegs (repoDir ++ pathParts rel))) := by
  intro line hline
  rcases build_flat_mem _ _ _ _ _ line hline with hforced | hspec | hm
  · exact Or.inl hforced
  · obtain ⟨q, hq, hlineeq⟩ := hspec
    obtain ⟨q0, hq0, rfl⟩ := List.mem_map.mp (List.mem_dedup.mp hq)
    rcases classify_fold_spec_mem fe repoDir explicit_set _ _ q0 hq0 with hnil | hfound
    · simp at hnil
    · obtain ⟨rel, hrelmem, hq0form, hfe, _⟩ := hfound
      subst hq0form
      have hrel : rel ∈ rel_paths := List.mem_dedup.mp (pysorted_mem.mp hrelmem)
      have hgood : ∀ s ∈ repoDir ++ pathParts rel, s ≠ "" ∧ s ≠ "." ∧ '/' ∉ s.data := by
        intro s hs
        rcases List.mem_append.mp hs with h1 | h2
        · exact hrw s h1
        · exact pathParts_good rel s h2
      have hres : resolveAbsStr (joinAbs (repoDir ++ pathParts rel))
          = joinAbs (normSegs (repoDir ++ pathParts rel)) := by
        unfold resolveAbsStr
        rw [pathParts_joinAbs _ hgood]
      refine Or.inr ⟨rel, hrel,
        relpath_posix (resolveAbsStr (joinAbs (repoDir ++ pathParts rel))) out_dir,
        Or.inl hlineeq, hp rel hrel, hfe, ?_⟩
      rw [resolve_relpath_of_resolved (joinAbs (repoDir ++ pathParts rel)) out_dir]
      exact hres
  · obtain ⟨q, hq, hlineeq⟩ := hm
    obtain ⟨q0, hq0, rfl⟩ := List.mem_map.mp (List.mem_dedup.mp hq)
    rcases classify_fold_m_mem fe repoDir explicit_set _ _ q0 hq0 with hnil | hfound
    · simp at hnil
    · obtain ⟨rel, hrelmem, hq0form, hfe, _⟩ := hfound
      subst hq0form
      have hrel : rel ∈ rel_paths := List.mem_dedup.mp (pysorted_mem.mp hrelmem)
      have hgood : ∀ s ∈ repoDir ++ pathParts rel, s ≠ "" ∧ s ≠ "." ∧ '/' ∉ s.data := by
        intro s hs
        rcases List.mem_append.mp hs with h1 | h2
        · exact hrw s h1
        · exact pathParts_good rel s h2
      have hres : resolveAbsStr (joinAbs (repoDir ++ pathParts rel))
          = joinAbs (normSegs (repoDir ++ pathParts rel)) := by
        unfold resolveAbsStr
        rw [pathParts_joinAbs _ hgood]
      refine Or.inr ⟨rel, hrel,
        relpath_posix (resolveAbsStr (joinAbs (repoDir ++ pathParts rel))) out_dir,
        Or.inr hlineeq, hp rel hrel, hfe, ?_⟩
      rw [resolve_relpath_of_resolved (joinAbs (repoDir ++ pathParts rel)) out_dir]
      exact hres

/-- Witness for C2: a single collected candidate `package/x.m` that
exists at `/repo/package/x.m`; the only line of the flat output is
`package/x.m`, which resolves back to the existing, prefix-passing
file. -/
theorem C2_flat_lines_resolve_to_existing_prefixed_files_witness :
    (∃ f ∈ ([] : List String), "package/x.m" = "+" ++ relpath_posix f "/repo") ∨
    (∃ rel ∈ ["package/x.m"], ∃ r : String,
      (("package/x.m" : String) = "+" ++ r ∨ ("package/x.m" : String) = r) ∧
      is_under_prefixes rel ["package/"] = true ∧
      (fun s => s == "/repo/package/x.m") (joinAbs (normSegs (["repo"] ++ pathParts rel)))
        = true ∧
      joinAbs (normSegs (pathParts "/repo" ++ pathParts r)) =
        joinAbs (normSegs (["repo"] ++ pathParts rel))) :=
  C2_flat_lines_resolve_to_existing_prefixed_files
    (fun s => s == "/repo/package/x.m") ["repo"] ["package/x.m"] [] ["package/"]
    "spec-first" "/repo" [] (by decide) (by decide) "package/x.m" (by decide)

end GenPatch
